import Mathlib

/-!
Verification of the ARB Polymarket trading bot against its natural-language
specification.  Rust `Decimal` values (`rust_decimal`) are modelled as exact
rationals `ℚ`; `Decimal::round()` (banker's rounding, midpoint to even) is
modelled by `roundHalfEven`; machine integers that matter are `ℕ`/`ℤ` with
explicit `% 2 ^ w`.  Each definition is a shallow embedding of the Rust item
of the same name.
-/

namespace ARB

/-- `rust_decimal` `Decimal::round()`: round to the nearest integer, ties to
the even neighbour (banker's rounding, the crate default `MidpointNearestEven`). -/
def roundHalfEven (q : ℚ) : ℤ :=
  let f := ⌊q⌋
  let r := q - f
  if r < 1/2 then f
  else if 1/2 < r then f + 1
  else if f % 2 = 0 then f else f + 1

/-- `types.rs` `Side`: order side, serialised as 0 = BUY, 1 = SELL. -/
inductive Side where
  | buy
  | sell
deriving DecidableEq, Repr

/-- `types.rs` `OrderType`. -/
inductive OrderType where
  | gtc
  | gtd
  | fok
deriving DecidableEq, Repr

/-- `types.rs` `SignedOrder`: the signed order payload.  All numeric fields
are decimal strings, exactly as the Rust struct keeps them. -/
structure SignedOrder where
  salt : String
  maker : String
  signer : String
  taker : String
  token_id : String
  maker_amount : String
  taker_amount : String
  expiration : String
  nonce : String
  fee_rate_bps : String
  side : Side
  signature_type : ℕ
  signature : String
deriving DecidableEq, Repr

/-- `types.rs` `Order`: a signed order plus submission metadata. -/
structure Order where
  order : SignedOrder
  owner : String
  order_type : OrderType
deriving DecidableEq, Repr

/-- `signer.rs` `OrderSigner::create_order`.  The effectful parts of the Rust
function (random 128-bit salt, wall-clock expiration, the secp256k1
signature) enter as parameters `salt`, `now`, `signature`; the amount
computation, the struct assembly and the constant fields are the Rust code.
For BUY the maker amount is the USDC cost `size * price` and the taker amount
is the share count `size`, both scaled by 1e6 and rounded; for SELL the two
are swapped. -/
def create_order (funder signer_addr token_id : String) (price size : ℚ)
    (side : Side) (salt : ℕ) (now : ℤ) (signature : String) : Order :=
  let amounts : String × String :=
    match side with
    | Side.buy =>
      let cost := size * price
      let cost_raw := toString (roundHalfEven (cost * 1000000))
      let shares_raw := toString (roundHalfEven (size * 1000000))
      (cost_raw, shares_raw)
    | Side.sell =>
      let cost := size * price
      let shares_raw := toString (roundHalfEven (size * 1000000))
      let cost_raw := toString (roundHalfEven (cost * 1000000))
      (shares_raw, cost_raw)
  let expiration := toString (now + 3600)
  let signed_order : SignedOrder :=
    { salt := toString salt
      maker := funder
      signer := signer_addr
      taker := "0x0000000000000000000000000000000000000000"
      token_id := token_id
      maker_amount := amounts.1
      taker_amount := amounts.2
      expiration := expiration
      nonce := "0"
      fee_rate_bps := "0"
      side := side
      signature_type := 0
      signature := signature }
  { order := signed_order
    owner := funder
    order_type := OrderType.gtc }

/-- `types.rs` `Position`: per-market share/cost tracking. -/
structure Position where
  up_shares : ℚ
  up_cost : ℚ
  down_shares : ℚ
  down_cost : ℚ
deriving DecidableEq, Repr

/-- `Position::total_cost`. -/
def Position.total_cost (p : Position) : ℚ :=
  p.up_cost + p.down_cost

/-- `Position::min_shares`. -/
def Position.min_shares (p : Position) : ℚ :=
  min p.up_shares p.down_shares

/-- `Position::guaranteed_payout`: each share pays one dollar. -/
def Position.guaranteed_payout (p : Position) : ℚ :=
  p.min_shares

/-- `Position::locked_profit`. -/
def Position.locked_profit (p : Position) : ℚ :=
  p.guaranteed_payout - p.total_cost

/-- `Position::is_balanced`: the relative share imbalance is below 10 percent;
an all-zero average short-circuits to `true`. -/
def Position.is_balanced (p : Position) : Bool :=
  let diff := |p.up_shares - p.down_shares|
  let avg := (p.up_shares + p.down_shares) / 2
  if avg = 0 then true
  else decide (diff / avg < 1/10)

/-- `bin/directional_bot.rs` `ReversalTracker`: counts direction reversals and
consecutive same-direction readings during a session. -/
structure ReversalTracker where
  last_direction : Option Bool
  reversal_count : ℕ
  consecutive_same : ℕ
deriving DecidableEq, Repr

/-- `ReversalTracker::new`. -/
def ReversalTracker.new : ReversalTracker :=
  { last_direction := none, reversal_count := 0, consecutive_same := 0 }

/-- `ReversalTracker::update`: feed one direction reading; returns the new
state together with whether the reading was a reversal.  A `none` reading is
ignored. -/
def ReversalTracker.update (t : ReversalTracker) (is_up : Option Bool) :
    ReversalTracker × Bool :=
  match is_up with
  | none => (t, false)
  | some current =>
    match t.last_direction with
    | some last =>
      if last ≠ current then
        ({ last_direction := some current,
           reversal_count := t.reversal_count + 1,
           consecutive_same := 1 }, true)
      else
        ({ last_direction := some current,
           reversal_count := t.reversal_count,
           consecutive_same := t.consecutive_same + 1 }, false)
    | none =>
      ({ last_direction := some current,
         reversal_count := t.reversal_count,
         consecutive_same := 1 }, false)

/-- `ReversalTracker::is_choppy`: two or more reversals. -/
def ReversalTracker.is_choppy (t : ReversalTracker) : Bool :=
  decide (2 ≤ t.reversal_count)

/-- `ReversalTracker::is_trend_consistent`: three or more consecutive
same-direction readings. -/
def ReversalTracker.is_trend_consistent (t : ReversalTracker) : Bool :=
  decide (3 ≤ t.consecutive_same)

/-- Fold a sequence of direction readings through `ReversalTracker::update`,
keeping the state; models any sequence of update calls by the session task. -/
def ReversalTracker.run (t : ReversalTracker) (l : List (Option Bool)) :
    ReversalTracker :=
  l.foldl (fun s d => (s.update d).1) t

/-- `bin/directional_bot.rs` `confidence_position_sizing`: maps the absolute
BTC change percentage to a dollar position size, a confidence label and a
risk percentage.  The thresholds and fractions are the Rust literals. -/
def confidence_position_sizing (btc_change_pct account_balance : ℚ) :
    ℚ × String × ℚ :=
  let abs_change := |btc_change_pct|
  if abs_change < 2/100 then
    (0, "TOO LOW (<0.02%) - NO TRADE", 0)
  else if abs_change < 5/100 then
    (account_balance * (8/100), "LOW (0.02-0.05%) - 8%", 8)
  else if abs_change < 10/100 then
    (account_balance * (12/100), "MED (0.05-0.10%) - 12%", 12)
  else if abs_change < 20/100 then
    (account_balance * (18/100), "HIGH (0.10-0.20%) - 18%", 18)
  else
    (account_balance * (25/100), "VERY HIGH (>0.20%) - 25%", 25)

/-- `btc_price.rs` `BtcPriceState`: the shared price-feed state (time stamps
of the Rust struct are omitted; they feed no claim). -/
structure BtcPriceState where
  current_price : ℚ
  market_open_price : Option ℚ
  connected : Bool
  price_history : List ℚ
  binance_price : Option ℚ
deriving DecidableEq, Repr

/-- `BtcPriceFeed::get_predicted_outcome`: `some true` (UP) when the current
price moved above the market-open snapshot, `some false` (DOWN) when below,
`none` when equal or when no open price is set. -/
def get_predicted_outcome (s : BtcPriceState) : Option Bool :=
  match s.market_open_price with
  | none => none
  | some o =>
    if s.current_price > o then some true
    else if s.current_price < o then some false
    else none

/-- `presigned_cache.rs` `OrderKey`: lookup key of the pre-signed cache. -/
structure OrderKey where
  token_id : String
  side : Side
  price_cents : ℕ
  size_bucket : ℕ
deriving DecidableEq, Repr

/-- `rust_decimal` `to_u32`: truncate a non-negative in-range decimal to an
unsigned 32-bit integer, `none` otherwise; the callers supply the
`unwrap_or` fallback. -/
def dec_to_u32 (q : ℚ) (dflt : ℕ) : ℕ :=
  if 0 ≤ q ∧ q < 4294967296 then (⌊q⌋).toNat else dflt

/-- `OrderKey::new`: price rounded down to cents (`unwrap_or(50)`), size
bucketed to the nearest lower multiple of 10 (`unwrap_or(1)`). -/
def OrderKey.new (token_id : String) (side : Side) (price size : ℚ) :
    OrderKey :=
  { token_id := token_id
    side := side
    price_cents := dec_to_u32 (price * 100) 50
    size_bucket := dec_to_u32 (size / 10) 1 * 10 }

/-- `presigned_cache.rs` `CachedOrder`: a signed order plus its creation
instant, modelled in whole seconds. -/
structure CachedOrder where
  order : Order
  created_at : ℕ
deriving DecidableEq, Repr

/-- `PresignedCache::new` sets `cache_ttl = Duration::from_secs(300)`:
a 5-minute TTL. -/
def cache_ttl : ℕ := 300

/-- `PresignedCache::get_order`: look the key up in the concurrent map and
return the cached order only while its age is below the TTL.  The map is
modelled as a function from keys to optional entries and the current instant
as `now` (seconds, with `created_at ≤ now`). -/
def PresignedCache.get_order (cache : OrderKey → Option CachedOrder)
    (now : ℕ) (token_id : String) (side : Side) (price size : ℚ) :
    Option Order :=
  let key := OrderKey.new token_id side price size
  match cache key with
  | some cached =>
    if now - cached.created_at < cache_ttl then some cached.order else none
  | none => none

/-- One side of `orderbook.rs` `LocalOrderbook`: the `BTreeMap` price → size
as an association list with unique keys; only the key set and the stored
sizes matter to the claims. -/
abbrev Book : Type := List (ℚ × ℚ)

/-- `BTreeMap::insert`: overwrite any entry with the same key. -/
def Book.insert (b : Book) (p s : ℚ) : Book :=
  (p, s) :: List.filter (fun e => decide (e.1 ≠ p)) b

/-- `BTreeMap::remove`. -/
def Book.erase (b : Book) (p : ℚ) : Book :=
  List.filter (fun e => decide (e.1 ≠ p)) b

/-- The key set of a book side. -/
def Book.keys (b : Book) : List ℚ :=
  List.map Prod.fst b

/-- Largest key: `bids.keys().next_back()` on the `BTreeMap`. -/
def Book.maxKey : Book → Option ℚ
  | [] => none
  | e :: rest =>
    match Book.maxKey rest with
    | none => some e.1
    | some m => some (max e.1 m)

/-- Smallest key: `asks.keys().next()` on the `BTreeMap`. -/
def Book.minKey : Book → Option ℚ
  | [] => none
  | e :: rest =>
    match Book.minKey rest with
    | none => some e.1
    | some m => some (min e.1 m)

/-- `orderbook.rs` `LocalOrderbook` (the `last_update` instant is omitted;
it feeds no claim). -/
structure LocalOrderbook where
  asset_id : String
  bids : Book
  asks : Book

/-- `LocalOrderbook::new`. -/
def LocalOrderbook.new (asset_id : String) : LocalOrderbook :=
  { asset_id := asset_id, bids := [], asks := [] }

/-- A wire snapshot level: the results of parsing the price and size strings
(`none` models a failed `parse::<Decimal>()`). -/
abbrev RawLevel : Type := Option ℚ × Option ℚ

/-- One iteration of the snapshot loop: insert the level when both parses
succeed and the size is positive, else skip it. -/
def loadLevel (b : Book) (l : RawLevel) : Book :=
  match l with
  | (some p, some s) => if 0 < s then Book.insert b p s else b
  | _ => b

/-- Load one snapshot side into a cleared book. -/
def loadSide (levels : List RawLevel) : Book :=
  levels.foldl loadLevel []

/-- `LocalOrderbook::update_from_snapshot`: clear both sides, then insert
every level that parses with positive size. -/
def LocalOrderbook.update_from_snapshot (ob : LocalOrderbook)
    (bids asks : List RawLevel) : LocalOrderbook :=
  { ob with bids := loadSide bids, asks := loadSide asks }

/-- `LocalOrderbook::update_level`: positive size inserts the level on the
chosen side, size ≤ 0 removes it. -/
def LocalOrderbook.update_level (ob : LocalOrderbook) (is_bid : Bool)
    (p s : ℚ) : LocalOrderbook :=
  if is_bid then
    { ob with bids :=
        if 0 < s then Book.insert ob.bids p s else Book.erase ob.bids p }
  else
    { ob with asks :=
        if 0 < s then Book.insert ob.asks p s else Book.erase ob.asks p }

/-- `LocalOrderbook::best_bid`: the highest bid price. -/
def LocalOrderbook.best_bid (ob : LocalOrderbook) : Option ℚ :=
  Book.maxKey ob.bids

/-- `LocalOrderbook::best_ask`: the lowest ask price. -/
def LocalOrderbook.best_ask (ob : LocalOrderbook) : Option ℚ :=
  Book.minKey ob.asks

/-- Compare one bid level against one ask level: fine unless both would be
inserted (both parse, sizes positive) with the bid price above the ask
price. -/
def level_uncrossed : RawLevel → RawLevel → Bool
  | (some p, some s), (some q, some t) =>
    if 0 < s then (if 0 < t then decide (p ≤ q) else true) else true
  | _, _ => true

/-- A snapshot is uncrossed when every bid level that would be inserted has
price at most that of every ask level that would be inserted. -/
def snapshot_uncrossed (bids asks : List RawLevel) : Bool :=
  bids.all fun bl => asks.all fun al => level_uncrossed bl al

/-- `strategies/mod.rs` `Outcome` side of a binary market. -/
inductive Outcome where
  | up
  | down
deriving DecidableEq, Repr

/-- `strategies/directional.rs` `DirectionalConfig` (f64 minutes modelled as
exact rationals). -/
structure DirectionalConfig where
  entry_minute_min : ℚ
  entry_minute_max : ℚ
  min_confidence_pct : ℚ
  max_entry_price : ℚ
  position_size : ℚ
  max_position : ℚ
  use_limit_orders : Bool
  limit_offset : ℚ
  ladder_levels : ℕ
  ladder_spacing : ℚ
deriving DecidableEq, Repr

/-- `strategies/mod.rs` `MarketState` as passed to a strategy. -/
structure MarketState where
  up_best_bid : Option ℚ
  up_best_ask : Option ℚ
  down_best_bid : Option ℚ
  down_best_ask : Option ℚ
  combined_ask : Option ℚ
  spread_pct : Option ℚ
  seconds_to_resolution : ℤ
  minute_of_period : ℚ
deriving DecidableEq, Repr

/-- `BtcPriceFeed::get_price_change`: dollar change since market open. -/
def get_price_change (s : BtcPriceState) : Option ℚ :=
  match s.market_open_price with
  | none => none
  | some o => some (s.current_price - o)

/-- `BtcPriceFeed::get_price_change_pct`: percentage change since market
open; `none` on a zero open price. -/
def get_price_change_pct (s : BtcPriceState) : Option ℚ :=
  match s.market_open_price with
  | none => none
  | some o =>
    if o = 0 then none else some ((s.current_price - o) / o * 100)

/-- `DirectionalStrategy::should_enter`: the ordered entry guards of the
strategy — minute window, no re-entry, BTC prediction present, confidence
threshold, then the best-ask gate `best_ask > max_entry_price → reject` on
the predicted side. -/
def should_enter (cfg : DirectionalConfig) (has_entered : Bool)
    (feed : BtcPriceState) (st : MarketState) : Option (Outcome × ℚ) :=
  if st.minute_of_period < cfg.entry_minute_min ∨
      st.minute_of_period > cfg.entry_minute_max then none
  else if has_entered then none
  else
    match get_predicted_outcome feed with
    | none => none
    | some btc_is_up =>
      match get_price_change feed with
      | none => none
      | some _btc_change =>
        match get_price_change_pct feed with
        | none => none
        | some btc_change_pct =>
          if |btc_change_pct| < cfg.min_confidence_pct then none
          else
            let choice : Outcome × Option ℚ :=
              if btc_is_up then (Outcome.up, st.up_best_ask)
              else (Outcome.down, st.down_best_ask)
            match choice.2 with
            | none => none
            | some best_ask =>
              if best_ask > cfg.max_entry_price then none
              else some (choice.1, best_ask)

/-- A concrete signed order used to populate cache states in concrete
evaluations. -/
def demo_order : Order :=
  create_order "0xMAKER" "0xSIGNER" "token" (1/2) 100 Side.buy 0 0 "0xSIG"

/-! SHA-256 over byte lists, as used by `orderflow-listener` (`sha2` crate)
to derive `tx_hash` values.  Words are `ℕ` reduced modulo `2 ^ 32`; the
bitwise primitives recurse over 32 bit positions. -/

/-- Truncate to a 32-bit word. -/
def wmask (x : ℕ) : ℕ := x % 4294967296

/-- Bitwise XOR over the given number of low bits. -/
def xorBits : ℕ → ℕ → ℕ → ℕ
  | 0, _, _ => 0
  | fuel + 1, a, b => (a + b) % 2 + 2 * xorBits fuel (a / 2) (b / 2)

/-- Bitwise AND over the given number of low bits. -/
def andBits : ℕ → ℕ → ℕ → ℕ
  | 0, _, _ => 0
  | fuel + 1, a, b => a % 2 * (b % 2) + 2 * andBits fuel (a / 2) (b / 2)

/-- 32-bit XOR. -/
def xor32 (a b : ℕ) : ℕ := xorBits 32 a b

/-- 32-bit AND. -/
def and32 (a b : ℕ) : ℕ := andBits 32 a b

/-- 32-bit complement. -/
def not32 (a : ℕ) : ℕ := 4294967295 - wmask a

/-- 32-bit right rotation. -/
def rotr (n x : ℕ) : ℕ := wmask (x / 2 ^ n + x % 2 ^ n * 2 ^ (32 - n))

/-- Right shift. -/
def shr (n x : ℕ) : ℕ := x / 2 ^ n

/-- 32-bit modular addition. -/
def add32 (a b : ℕ) : ℕ := (a + b) % 4294967296

/-- The 64 SHA-256 round constants of FIPS 180-4, in decimal. -/
def sha256K : List ℕ :=
  [1116352408, 1899447441, 3049323471,
   3921009573, 961987163, 1508970993,
   2453635748, 2870763221, 3624381080,
   310598401, 607225278, 1426881987,
   1925078388, 2162078206, 2614888103,
   3248222580, 3835390401, 4022224774,
   264347078, 604807628, 770255983,
   1249150122, 1555081692, 1996064986,
   2554220882, 2821834349, 2952996808,
   3210313671, 3336571891, 3584528711,
   113926993, 338241895, 666307205,
   773529912, 1294757372, 1396182291,
   1695183700, 1986661051, 2177026350,
   2456956037, 2730485921, 2820302411,
   3259730800, 3345764771, 3516065817,
   3600352804, 4094571909, 275423344,
   430227734, 506948616, 659060556,
   883997877, 958139571, 1322822218,
   1537002063, 1747873779, 1955562222,
   2024104815, 2227730452, 2361852424,
   2428436474, 2756734187, 3204031479,
   3329325298]

/-- The eight SHA-256 initial hash words of FIPS 180-4, in decimal. -/
def sha256H0 : List ℕ :=
  [1779033703, 3144134277, 1013904242,
   2773480762, 1359893119, 2600822924,
   528734635, 1541459225]

/-- Big-endian byte rendering of a number on `k` bytes. -/
def beBytes : ℕ → ℕ → List ℕ
  | 0, _ => []
  | k + 1, n => beBytes k (n / 256) ++ [n % 256]

/-- SHA-256 padding: append `0x80`, zero bytes to 56 mod 64, then the bit
length on 8 big-endian bytes. -/
def sha256pad (msg : List ℕ) : List ℕ :=
  let len := msg.length
  let zeros := (64 - (len + 9) % 64) % 64
  msg ++ [128] ++ List.replicate zeros 0 ++ beBytes 8 (8 * len)

/-- Group bytes into big-endian 32-bit words. -/
def toWords : List ℕ → List ℕ
  | b0 :: b1 :: b2 :: b3 :: rest =>
    (b0 * 16777216 + b1 * 65536 + b2 * 256 + b3) :: toWords rest
  | _ => []

/-- Split into 64-byte blocks (fuelled recursion). -/
def chunk64 : ℕ → List ℕ → List (List ℕ)
  | 0, _ => []
  | _, [] => []
  | fuel + 1, l => l.take 64 :: chunk64 fuel (l.drop 64)

/-- Extend a 16-word block to the 64-word message schedule. -/
def extendSchedule : ℕ → List ℕ → List ℕ
  | 0, w => w
  | fuel + 1, w =>
    let n := w.length
    let w15 := w.getD (n - 15) 0
    let w2 := w.getD (n - 2) 0
    let s0 := xor32 (xor32 (rotr 7 w15) (rotr 18 w15)) (shr 3 w15)
    let s1 := xor32 (xor32 (rotr 17 w2) (rotr 19 w2)) (shr 10 w2)
    extendSchedule fuel
      (w ++ [add32 (add32 (w.getD (n - 16) 0) s0)
               (add32 (w.getD (n - 7) 0) s1)])

/-- The eight SHA-256 working variables. -/
structure Sha256State where
  a : ℕ
  b : ℕ
  c : ℕ
  d : ℕ
  e : ℕ
  f : ℕ
  g : ℕ
  h : ℕ

/-- One SHA-256 compression round. -/
def shaRound (st : Sha256State) (kw : ℕ × ℕ) : Sha256State :=
  let S1 := xor32 (xor32 (rotr 6 st.e) (rotr 11 st.e)) (rotr 25 st.e)
  let ch := xor32 (and32 st.e st.f) (and32 (not32 st.e) st.g)
  let temp1 := add32 (add32 (add32 st.h S1) (add32 ch kw.1)) kw.2
  let S0 := xor32 (xor32 (rotr 2 st.a) (rotr 13 st.a)) (rotr 22 st.a)
  let maj := xor32 (xor32 (and32 st.a st.b) (and32 st.a st.c))
    (and32 st.b st.c)
  let temp2 := add32 S0 maj
  { a := add32 temp1 temp2, b := st.a, c := st.b, d := st.c,
    e := add32 st.d temp1, f := st.e, g := st.f, h := st.g }

/-- Compress one 16-word block into the running hash. -/
def processBlock (hs : List ℕ) (block : List ℕ) : List ℕ :=
  let ws := extendSchedule 48 block
  let st0 : Sha256State :=
    { a := hs.getD 0 0, b := hs.getD 1 0, c := hs.getD 2 0,
      d := hs.getD 3 0, e := hs.getD 4 0, f := hs.getD 5 0,
      g := hs.getD 6 0, h := hs.getD 7 0 }
  let st := (sha256K.zip ws).foldl shaRound st0
  [add32 (hs.getD 0 0) st.a, add32 (hs.getD 1 0) st.b,
   add32 (hs.getD 2 0) st.c, add32 (hs.getD 3 0) st.d,
   add32 (hs.getD 4 0) st.e, add32 (hs.getD 5 0) st.f,
   add32 (hs.getD 6 0) st.g, add32 (hs.getD 7 0) st.h]

/-- SHA-256 of a byte list (validated against the NIST vectors for the
empty, `abc` and 448-bit test messages). -/
def sha256 (msg : List ℕ) : List ℕ :=
  let padded := sha256pad msg
  let blocks := (chunk64 padded.length padded).map toWords
  let hs := blocks.foldl processBlock sha256H0
  hs.foldr (fun w acc => beBytes 4 w ++ acc) []

/-- Lowercase hex digit: `0`–`9` for values below ten, `a`–`f` above. -/
def hexDigit (n : ℕ) : Char :=
  if n < 10 then Char.ofNat (48 + n) else Char.ofNat (87 + n)

/-- `hex::encode`: lowercase hex, two digits per byte, no prefix. -/
def hexEncode (bytes : List ℕ) : String :=
  ⟨bytes.foldr (fun b acc => hexDigit (b / 16) :: hexDigit (b % 16) :: acc)
    []⟩

/-- The `0x`-prefixed lowercase hex rendering used both by `hex::encode`
with an explicit prefix and by the ethers `Debug` format of addresses and
hashes. -/
def hex0x (bytes : List ℕ) : String := "0x" ++ hexEncode bytes

/-- Bytes of an ASCII string. -/
def strBytes (s : String) : List ℕ := s.data.map Char.toNat

/-- `orderflow-listener/types.rs` `Trade` (the two `f64` columns `price`
and `size` are modelled as exact rationals; their values never feed a
claim). -/
structure Trade where
  tx_hash : String
  block_number : ℕ
  timestamp : ℕ
  wallet_address : String
  is_maker : Bool
  market_id : String
  market_title : Option String
  token_id : String
  outcome : Option String
  side : String
  price : ℚ
  size : ℚ
  value_usd : Option ℚ
  order_hash : Option String
  fee_paid : Option ℚ
  gas_price : Option ℤ
deriving DecidableEq, Repr

/-- `Trade::new`: identity fields set, every market field defaulted. -/
def Trade.new (tx_hash : String) (block_number : ℕ) (timestamp : ℕ)
    (wallet_address : String) (is_maker : Bool) : Trade :=
  { tx_hash := tx_hash
    block_number := block_number
    timestamp := timestamp
    wallet_address := wallet_address
    is_maker := is_maker
    market_id := ""
    market_title := none
    token_id := ""
    outcome := none
    side := ""
    price := 0
    size := 0
    value_usd := none
    order_hash := none
    fee_paid := none
    gas_price := none }

/-- `polygon.rs` `wei_to_decimal`: wei to token units (the Rust f64
division is modelled exactly; it is deterministic either way). -/
def wei_to_decimal (wei : ℕ) : ℚ := (wei : ℚ) / 1000000000000000000

/-- `polygon.rs` `OrderFilled` event payload (byte-array fields as byte
lists, `U256` fields as `ℕ`). -/
structure OrderFilledEvent where
  order_hash : List ℕ
  maker : List ℕ
  taker : List ℕ
  maker_asset_id : ℕ
  taker_asset_id : ℕ
  maker_amount_filled : ℕ
  taker_amount_filled : ℕ
  fee : ℕ

/-- `polygon.rs` `OrdersMatched` event payload. -/
structure OrdersMatchedEvent where
  maker_order_hash : List ℕ
  taker_order_hash : List ℕ
  maker : List ℕ
  taker : List ℕ
  maker_asset_id : ℕ
  taker_asset_id : ℕ
  maker_amount_filled : ℕ
  taker_amount_filled : ℕ
  maker_fee : ℕ
  taker_fee : ℕ

/-- Maker-side `tx_hash` of an `OrderFilled` event: SHA-256 of
`hex(order_hash) ++ "_maker_" ++ debug(maker)`. -/
def order_filled_maker_tx_hash (e : OrderFilledEvent) : String :=
  hex0x (sha256 (strBytes
    (hexEncode e.order_hash ++ "_maker_" ++ hex0x e.maker)))

/-- Taker-side `tx_hash` of an `OrderFilled` event. -/
def order_filled_taker_tx_hash (e : OrderFilledEvent) : String :=
  hex0x (sha256 (strBytes
    (hexEncode e.order_hash ++ "_taker_" ++ hex0x e.taker)))

/-- The maker-side trade row synthesised by `process_order_filled`
(`block_number` is the literal 0 of the Rust code; `ts` is the
`Utc::now()` call). -/
def order_filled_maker_trade (e : OrderFilledEvent) (ts : ℕ) : Trade :=
  { Trade.new (order_filled_maker_tx_hash e) 0 ts (hex0x e.maker) true with
    token_id := toString e.maker_asset_id
    size := wei_to_decimal e.maker_amount_filled
    fee_paid := some (wei_to_decimal e.fee)
    order_hash := some (hex0x e.order_hash)
    side := "SELL"
    price :=
      if 0 < e.maker_amount_filled then
        (e.taker_amount_filled : ℚ) / (e.maker_amount_filled : ℚ)
      else 0 }

/-- The taker-side trade row synthesised by `process_order_filled`;
its price copies the maker-side price and `fee_paid` stays at the
`Trade::new` default. -/
def order_filled_taker_trade (e : OrderFilledEvent) (ts : ℕ) : Trade :=
  { Trade.new (order_filled_taker_tx_hash e) 0 ts (hex0x e.taker) false with
    token_id := toString e.taker_asset_id
    size := wei_to_decimal e.taker_amount_filled
    order_hash := some (hex0x e.order_hash)
    side := "BUY"
    price := (order_filled_maker_trade e ts).price }

/-- Maker-side `tx_hash` of an `OrdersMatched` event: SHA-256 of
`hex(maker_order_hash) ++ "_" ++ hex(taker_order_hash) ++ "_" ++
debug(maker) ++ "_maker"`. -/
def orders_matched_maker_tx_hash (e : OrdersMatchedEvent) : String :=
  hex0x (sha256 (strBytes
    (hexEncode e.maker_order_hash ++ "_" ++ hexEncode e.taker_order_hash
      ++ "_" ++ hex0x e.maker ++ "_maker")))

/-- Taker-side `tx_hash` of an `OrdersMatched` event. -/
def orders_matched_taker_tx_hash (e : OrdersMatchedEvent) : String :=
  hex0x (sha256 (strBytes
    (hexEncode e.maker_order_hash ++ "_" ++ hexEncode e.taker_order_hash
      ++ "_" ++ hex0x e.taker ++ "_taker")))

/-- The maker-side trade row synthesised by `process_orders_matched`. -/
def orders_matched_maker_trade (e : OrdersMatchedEvent) (ts : ℕ) : Trade :=
  { Trade.new (orders_matched_maker_tx_hash e) 0 ts (hex0x e.maker) true with
    token_id := toString e.maker_asset_id
    size := wei_to_decimal e.maker_amount_filled
    fee_paid := some (wei_to_decimal e.maker_fee)
    order_hash := some (hex0x e.maker_order_hash)
    side := "SELL"
    price :=
      if 0 < e.maker_amount_filled then
        (e.taker_amount_filled : ℚ) / (e.maker_amount_filled : ℚ)
      else 0 }

/-- The taker-side trade row synthesised by `process_orders_matched`. -/
def orders_matched_taker_trade (e : OrdersMatchedEvent) (ts : ℕ) : Trade :=
  { Trade.new (orders_matched_taker_tx_hash e) 0 ts (hex0x e.taker) false with
    token_id := toString e.taker_asset_id
    size := wei_to_decimal e.taker_amount_filled
    fee_paid := some (wei_to_decimal e.taker_fee)
    order_hash := some (hex0x e.taker_order_hash)
    side := "BUY"
    price := (orders_matched_maker_trade e ts).price }

/-- `storage.rs` `TradeStorage::save_trade`: the
`INSERT ... ON CONFLICT (tx_hash) DO NOTHING`.  The table is modelled as a
row list; a row is appended only when no stored row carries the same
`tx_hash`. -/
def save_trade (db : List Trade) (t : Trade) : List Trade :=
  if db.any (fun r => r.tx_hash == t.tx_hash) then db else db ++ [t]

/-- `PolygonListener::process_order_filled`: synthesise the maker-side and
taker-side rows and store both. -/
def process_order_filled (db : List Trade) (ts : ℕ)
    (e : OrderFilledEvent) : List Trade :=
  save_trade (save_trade db (order_filled_maker_trade e ts))
    (order_filled_taker_trade e ts)

/-- `PolygonListener::process_orders_matched`. -/
def process_orders_matched (db : List Trade) (ts : ℕ)
    (e : OrdersMatchedEvent) : List Trade :=
  save_trade (save_trade db (orders_matched_maker_trade e ts))
    (orders_matched_taker_trade e ts)

/-- Number of stored rows carrying a given `tx_hash`. -/
def countHash (db : List Trade) (h : String) : ℕ :=
  (db.filter (fun t => t.tx_hash == h)).length

/-- A concrete `OrderFilled` event for concrete evaluations. -/
def demo_filled_event : OrderFilledEvent :=
  { order_hash := [171]
    maker := [1]
    taker := [2]
    maker_asset_id := 11
    taker_asset_id := 12
    maker_amount_filled := 2000000000000000000
    taker_amount_filled := 1000000000000000000
    fee := 0 }

end ARB

namespace ARB

/-- `Book.maxKey` returns one of the keys of the book. -/
theorem Book.maxKey_mem (b : Book) (m : ℚ) (h : Book.maxKey b = some m) :
    m ∈ Book.keys b := by
  induction b generalizing m with
  | nil => simp [Book.maxKey] at h
  | cons e rest ih =>
    simp only [Book.maxKey] at h
    cases hr : Book.maxKey rest with
    | none =>
      rw [hr] at h
      injection h with h
      subst h
      simp [Book.keys]
    | some m' =>
      rw [hr] at h
      injection h with h
      subst h
      rcases max_choice e.1 m' with hc | hc <;> rw [hc]
      · simp [Book.keys]
      · simp only [Book.keys, List.map_cons, List.mem_cons]
        exact Or.inr (ih m' hr)

/-- `Book.minKey` returns one of the keys of the book. -/
theorem Book.minKey_mem (b : Book) (m : ℚ) (h : Book.minKey b = some m) :
    m ∈ Book.keys b := by
  induction b generalizing m with
  | nil => simp [Book.minKey] at h
  | cons e rest ih =>
    simp only [Book.minKey] at h
    cases hr : Book.minKey rest with
    | none =>
      rw [hr] at h
      injection h with h
      subst h
      simp [Book.keys]
    | some m' =>
      rw [hr] at h
      injection h with h
      subst h
      rcases min_choice e.1 m' with hc | hc <;> rw [hc]
      · simp [Book.keys]
      · simp only [Book.keys, List.map_cons, List.mem_cons]
        exact Or.inr (ih m' hr)

/-- Keys present after one snapshot-loop iteration either were present
before or come from that very level (parsed, positive size). -/
theorem loadLevel_keys (acc : Book) (l : RawLevel) (p : ℚ)
    (h : p ∈ Book.keys (loadLevel acc l)) :
    p ∈ Book.keys acc ∨ ∃ s, l = (some p, some s) ∧ 0 < s := by
  rcases l with ⟨op, os⟩
  cases op with
  | none => exact Or.inl h
  | some q =>
    cases os with
    | none => exact Or.inl h
    | some s =>
      simp only [loadLevel] at h
      by_cases hs : 0 < s
      · rw [if_pos hs] at h
        simp only [Book.insert, Book.keys, List.map_cons, List.mem_cons]
          at h
        rcases h with h | h
        · subst h
          exact Or.inr ⟨s, rfl, hs⟩
        · rcases List.mem_map.mp h with ⟨e, he, hep⟩
          exact Or.inl (List.mem_map.mpr
            ⟨e, (List.mem_filter.mp he).1, hep⟩)
      · rw [if_neg hs] at h
        exact Or.inl h

/-- Keys of a loaded snapshot side come from its levels. -/
theorem loadSide_keys (ls : List RawLevel) (acc : Book) (p : ℚ)
    (h : p ∈ Book.keys (ls.foldl loadLevel acc)) :
    p ∈ Book.keys acc ∨ ∃ s, (some p, some s) ∈ ls ∧ 0 < s := by
  induction ls generalizing acc with
  | nil => exact Or.inl h
  | cons l ls ih =>
    simp only [List.foldl_cons] at h
    rcases ih _ h with h' | ⟨s, hmem, hs⟩
    · rcases loadLevel_keys acc l p h' with h'' | ⟨s, hl, hs⟩
      · exact Or.inl h''
      · refine Or.inr ⟨s, ?_, hs⟩
        rw [← hl]
        exact List.mem_cons_self _ _
    · exact Or.inr ⟨s, List.mem_cons_of_mem _ hmem, hs⟩

/-- A trade just saved is present (by hash) in the stored set. -/
theorem save_trade_mem_self (db : List Trade) (t : Trade) :
    t.tx_hash ∈ (save_trade db t).map Trade.tx_hash := by
  unfold save_trade
  by_cases h : db.any (fun r => r.tx_hash == t.tx_hash)
  · rw [if_pos h]
    rcases List.any_eq_true.mp h with ⟨r, hr, hrt⟩
    exact List.mem_map.mpr ⟨r, hr, by simpa using hrt⟩
  · rw [if_neg h]
    simp

/-- Saving never removes a stored hash. -/
theorem save_trade_mem_mono (db : List Trade) (t : Trade) (h : String)
    (hm : h ∈ db.map Trade.tx_hash) :
    h ∈ (save_trade db t).map Trade.tx_hash := by
  unfold save_trade
  split_ifs
  · exact hm
  · simp only [List.map_append, List.mem_append]
    exact Or.inl hm

/-- `ON CONFLICT DO NOTHING`: saving a trade whose hash is already stored
leaves the table unchanged. -/
theorem save_trade_of_mem (db : List Trade) (t : Trade)
    (hm : t.tx_hash ∈ db.map Trade.tx_hash) : save_trade db t = db := by
  unfold save_trade
  rcases List.mem_map.mp hm with ⟨r, hr, hrt⟩
  rw [if_pos (List.any_eq_true.mpr ⟨r, hr, by simp [hrt]⟩)]

/-- Re-saving a pair of trades whose hashes match the first pair is a
no-op. -/
theorem save_pair_idem (db : List Trade) (t1 t2 t1' t2' : Trade)
    (h1 : t1'.tx_hash = t1.tx_hash) (h2 : t2'.tx_hash = t2.tx_hash) :
    save_trade (save_trade (save_trade (save_trade db t1) t2) t1') t2'
      = save_trade (save_trade db t1) t2 := by
  have hm1 : t1'.tx_hash
      ∈ (save_trade (save_trade db t1) t2).map Trade.tx_hash := by
    rw [h1]
    exact save_trade_mem_mono _ t2 _ (save_trade_mem_self db t1)
  rw [save_trade_of_mem _ _ hm1]
  have hm2 : t2'.tx_hash
      ∈ (save_trade (save_trade db t1) t2).map Trade.tx_hash := by
    rw [h2]
    exact save_trade_mem_self _ t2
  rw [save_trade_of_mem _ _ hm2]

/-- C1: an order produced by `OrderSigner::create_order` with side BUY carries
`maker_amount = round(size * price * 1e6)` and
`taker_amount = round(size * 1e6)` as decimal strings, and with side SELL the
two values are swapped; the rounding is the `Decimal::round` banker's
rounding. -/
theorem create_order_amounts (funder signer_addr token_id : String)
    (price size : ℚ) (salt : ℕ) (now : ℤ) (signature : String) :
    ((create_order funder signer_addr token_id price size Side.buy salt now
        signature).order.maker_amount
      = toString (roundHalfEven (size * price * 1000000)) ∧
     (create_order funder signer_addr token_id price size Side.buy salt now
        signature).order.taker_amount
      = toString (roundHalfEven (size * 1000000))) ∧
    ((create_order funder signer_addr token_id price size Side.sell salt now
        signature).order.maker_amount
      = toString (roundHalfEven (size * 1000000)) ∧
     (create_order funder signer_addr token_id price size Side.sell salt now
        signature).order.taker_amount
      = toString (roundHalfEven (size * price * 1000000))) := by
  refine ⟨⟨rfl, rfl⟩, ⟨rfl, rfl⟩⟩

/-- C4: for every position, the guaranteed payout is at most the smaller
share count, and locked profit plus total cost equals the guaranteed
payout. -/
theorem position_payout_invariant (p : Position) :
    p.guaranteed_payout ≤ min p.up_shares p.down_shares ∧
    p.locked_profit + p.total_cost = p.guaranteed_payout := by
  constructor
  · exact le_of_eq rfl
  · unfold Position.locked_profit
    ring

/-- C10: `Position::is_balanced` is total: with `up_shares + down_shares = 0`
(zero average) it returns `true` without dividing, and otherwise it returns
whether the absolute share difference divided by the average is below 0.1. -/
theorem is_balanced_total (p : Position) :
    (p.up_shares + p.down_shares = 0 → p.is_balanced = true) ∧
    (p.up_shares + p.down_shares ≠ 0 →
      (p.is_balanced = true ↔
        |p.up_shares - p.down_shares| / ((p.up_shares + p.down_shares) / 2)
          < 1/10)) := by
  constructor
  · intro h
    unfold Position.is_balanced
    simp [h]
  · intro h
    have havg : (p.up_shares + p.down_shares) / 2 ≠ 0 :=
      div_ne_zero h two_ne_zero
    simp only [Position.is_balanced]
    rw [if_neg havg]
    exact decide_eq_true_iff

/-- C10 witness: a concrete balanced position exercises both branches of the
characterisation. -/
theorem is_balanced_total_witness :
    (Position.mk 0 0 0 0).is_balanced = true ∧
    ((Position.mk 1 0 1 0).is_balanced = true ↔
      |(1 : ℚ) - 1| / (((1 : ℚ) + 1) / 2) < 1/10) := by
  constructor
  · exact (is_balanced_total (Position.mk 0 0 0 0)).1 (by norm_num)
  · exact (is_balanced_total (Position.mk 1 0 1 0)).2 (by norm_num)

/-- C2 counterexample: the reading sequence UP, DOWN, UP, UP, UP reaches a
state with `reversal_count = 2` and `consecutive_same = 3`, so a reachable
state is simultaneously choppy and trend-consistent, refuting
`is_choppy implies not is_trend_consistent`. -/
theorem reversal_tracker_choppy_and_consistent :
    (ReversalTracker.new.run
      [some true, some false, some true, some true, some true]).is_choppy
        = true ∧
    (ReversalTracker.new.run
      [some true, some false, some true, some true, some true]).is_trend_consistent
        = true := by
  decide

/-- C2 amended: an update that registers a reversal always resets
`consecutive_same` to 1, so immediately after any reversal the tracker is not
trend-consistent; in general, later same-direction readings can make a state
with two or more reversals trend-consistent again. -/
theorem reversal_resets_trend (t : ReversalTracker) (b : Bool)
    (h : (t.update (some b)).2 = true) :
    (t.update (some b)).1.is_trend_consistent = false := by
  rcases t with ⟨ld, rc, cs⟩
  cases ld with
  | none => simp [ReversalTracker.update] at h
  | some last =>
    by_cases hne : last = b
    · simp [ReversalTracker.update, hne] at h
    · simp [ReversalTracker.update, hne, ReversalTracker.is_trend_consistent]

/-- C2 witness: a concrete reversal (last UP, reading DOWN) leaves a
non-trend-consistent state. -/
theorem reversal_resets_trend_witness :
    ((ReversalTracker.mk (some true) 0 3).update (some false)).1.is_trend_consistent
      = false :=
  reversal_resets_trend (ReversalTracker.mk (some true) 0 3) false (by decide)

/-- C7 counterexample: with account balance 0 the returned size is 0 even for
a change of 0.05 percent, which is not below the 0.02 threshold; so size 0
does not characterise `|btc_change_pct| < 0.02` for every non-negative
balance. -/
theorem confidence_sizing_zero_balance :
    (confidence_position_sizing (5/100) 0).1 = 0 ∧
    ¬ (|(5/100 : ℚ)| < 2/100) := by
  have habs : |(5/100 : ℚ)| = 5/100 := abs_of_pos (by norm_num)
  constructor
  · simp only [confidence_position_sizing, habs]
    norm_num
  · rw [habs]
    norm_num

/-- C7 amended: for any fixed non-negative balance the size is monotone
non-decreasing in `|btc_change_pct|`, and for a strictly positive balance the
size is 0 exactly when `|btc_change_pct| < 0.02` (with balance 0 every size
is 0). -/
theorem confidence_sizing_monotone :
    (∀ bal a b : ℚ, 0 ≤ bal → |a| ≤ |b| →
      (confidence_position_sizing a bal).1
        ≤ (confidence_position_sizing b bal).1) ∧
    (∀ bal a : ℚ, 0 < bal →
      ((confidence_position_sizing a bal).1 = 0 ↔ |a| < 2/100)) := by
  constructor
  · intro bal a b hbal hab
    simp only [confidence_position_sizing]
    split_ifs <;> dsimp only <;> linarith
  · intro bal a hbal
    simp only [confidence_position_sizing]
    split_ifs with h1 h2 h3 h4 <;> dsimp only <;>
      constructor <;> intro h <;> first | rfl | linarith

/-- C7 witness: monotonicity and the zero characterisation at concrete
inputs (balance 1, changes 0.03, 0.06 and 0.01 percent points). -/
theorem confidence_sizing_monotone_witness :
    (confidence_position_sizing (3/100) 1).1
      ≤ (confidence_position_sizing (6/100) 1).1 ∧
    ((confidence_position_sizing (1/100) 1).1 = 0 ↔
      |(1/100 : ℚ)| < 2/100) :=
  ⟨confidence_sizing_monotone.1 1 (3/100) (6/100) (by norm_num)
      (by rw [abs_of_pos (by norm_num : (0:ℚ) < 3/100),
              abs_of_pos (by norm_num : (0:ℚ) < 6/100)]
          norm_num),
   confidence_sizing_monotone.2 1 (1/100) (by norm_num)⟩

/-- C8: `get_predicted_outcome` returns `some true` exactly when a market
open price is set and the current price is above it, `some false` exactly
when one is set and the current price is below it, and `none` exactly when
the prices are equal or no open price is set. -/
theorem get_predicted_outcome_spec (s : BtcPriceState) :
    (get_predicted_outcome s = some true ↔
      ∃ o, s.market_open_price = some o ∧ o < s.current_price) ∧
    (get_predicted_outcome s = some false ↔
      ∃ o, s.market_open_price = some o ∧ s.current_price < o) ∧
    (get_predicted_outcome s = none ↔
      s.market_open_price = none ∨
      ∃ o, s.market_open_price = some o ∧ s.current_price = o) := by
  rcases s with ⟨cur, mop, conn, hist, bp⟩
  cases mop with
  | none => simp [get_predicted_outcome]
  | some o =>
    rcases lt_trichotomy o cur with h | h | h
    · have hg : get_predicted_outcome
          ⟨cur, some o, conn, hist, bp⟩ = some true := by
        simp only [get_predicted_outcome]
        rw [if_pos h]
      rw [hg]
      refine ⟨⟨fun _ => ⟨o, rfl, h⟩, fun _ => rfl⟩, ?_, ?_⟩
      · constructor
        · intro hc
          exact absurd hc (by simp)
        · rintro ⟨o', ho', hlt⟩
          injection ho' with ho'
          subst ho'
          exact absurd hlt (not_lt.mpr (le_of_lt h))
      · constructor
        · intro hc
          exact absurd hc (by simp)
        · rintro (hc | ⟨o', ho', he⟩)
          · exact absurd hc (by simp)
          · injection ho' with ho'
            subst ho'
            exact absurd he (ne_of_gt h)
    · have hg : get_predicted_outcome
          ⟨cur, some o, conn, hist, bp⟩ = none := by
        simp only [get_predicted_outcome]
        rw [if_neg (by rw [h]; exact lt_irrefl cur),
            if_neg (by rw [h]; exact lt_irrefl cur)]
      rw [hg]
      refine ⟨?_, ?_, ?_⟩
      · constructor
        · intro hc
          exact absurd hc (by simp)
        · rintro ⟨o', ho', hlt⟩
          injection ho' with ho'
          subst ho'
          exact absurd (h ▸ hlt) (lt_irrefl cur)
      · constructor
        · intro hc
          exact absurd hc (by simp)
        · rintro ⟨o', ho', hlt⟩
          injection ho' with ho'
          subst ho'
          exact absurd (h ▸ hlt) (lt_irrefl cur)
      · exact ⟨fun _ => Or.inr ⟨o, rfl, h.symm⟩, fun _ => rfl⟩
    · have hg : get_predicted_outcome
          ⟨cur, some o, conn, hist, bp⟩ = some false := by
        simp only [get_predicted_outcome]
        rw [if_neg (not_lt.mpr (le_of_lt h)), if_pos h]
      rw [hg]
      refine ⟨?_, ⟨fun _ => ⟨o, rfl, h⟩, fun _ => rfl⟩, ?_⟩
      · constructor
        · intro hc
          exact absurd hc (by simp)
        · rintro ⟨o', ho', hlt⟩
          injection ho' with ho'
          subst ho'
          exact absurd hlt (not_lt.mpr (le_of_lt h))
      · constructor
        · intro hc
          exact absurd hc (by simp)
        · rintro (hc | ⟨o', ho', he⟩)
          · exact absurd hc (by simp)
          · injection ho' with ho'
            subst ho'
            exact absurd he (ne_of_lt h)

/-- C3 counterexample: an entry created at instant 0 is no longer returned
by `get_order` at instant 600 (age ten minutes), although ten minutes is
well below one hour — the cache TTL is the 300-second literal of
`PresignedCache::new`, not 1 hour. -/
theorem presigned_entry_expires_within_hour :
    PresignedCache.get_order
        (fun _ => some { order := demo_order, created_at := 0 }) 600
        "token" Side.buy (1/2) 100 = none ∧
    (600 : ℕ) < 3600 := by
  constructor
  · simp [PresignedCache.get_order, cache_ttl]
  · norm_num

/-- C3 amended: `get_order` returns the cached order exactly while the
age of the entry under the looked-up key is below the 300-second
(5-minute) TTL, and `none` from then on; the TTL is shorter than a
15-minute session, so an entry can expire mid-session (the signed order
itself carries a 1-hour `expiration`). -/
theorem presigned_get_order_ttl (cache : OrderKey → Option CachedOrder)
    (now : ℕ) (token_id : String) (side : Side) (price size : ℚ)
    (c : CachedOrder)
    (h : cache (OrderKey.new token_id side price size) = some c) :
    PresignedCache.get_order cache now token_id side price size
      = some c.order ↔ now - c.created_at < cache_ttl := by
  simp only [PresignedCache.get_order, h]
  by_cases hlt : now - c.created_at < cache_ttl
  · rw [if_pos hlt]
    simp [hlt]
  · rw [if_neg hlt]
    simp [hlt]

/-- C3 witness: a 100-second-old entry is still returned. -/
theorem presigned_get_order_ttl_witness :
    PresignedCache.get_order
        (fun _ => some { order := demo_order, created_at := 0 }) 100
        "token" Side.buy (1/2) 100 = some demo_order :=
  (presigned_get_order_ttl
      (fun _ => some { order := demo_order, created_at := 0 }) 100
      "token" Side.buy (1/2) 100
      { order := demo_order, created_at := 0 } rfl).mpr
    (by norm_num [cache_ttl])

/-- C5 counterexample: a crossed snapshot (single bid at 0.6, single ask at
0.5) reaches, in one `update_from_snapshot` from the fresh book, a state
where `best_bid` and `best_ask` both exist yet `best_bid > best_ask`; the
mirror does not enforce uncrossedness. -/
theorem orderbook_crossed_snapshot :
    ((LocalOrderbook.new "a").update_from_snapshot
        [(some (6/10), some 1)] [(some (1/2), some 1)]).best_bid
      = some (6/10) ∧
    ((LocalOrderbook.new "a").update_from_snapshot
        [(some (6/10), some 1)] [(some (1/2), some 1)]).best_ask
      = some (1/2) ∧
    ¬ ((6/10 : ℚ) ≤ 1/2) := by
  refine ⟨?_, ?_, by norm_num⟩
  · norm_num [LocalOrderbook.new, LocalOrderbook.update_from_snapshot,
      LocalOrderbook.best_bid, loadSide, loadLevel, Book.insert,
      Book.maxKey]
  · norm_num [LocalOrderbook.new, LocalOrderbook.update_from_snapshot,
      LocalOrderbook.best_ask, loadSide, loadLevel, Book.insert,
      Book.minKey]

/-- C5 amended: after `update_from_snapshot` with an uncrossed snapshot
(every bid level that is inserted has price at most that of every inserted
ask level), whenever `best_bid` and `best_ask` both exist,
`best_bid ≤ best_ask`; the book itself mirrors the wire data and a crossed
snapshot or delta produces a crossed book. -/
theorem update_from_snapshot_uncrossed (ob : LocalOrderbook)
    (bids asks : List RawLevel)
    (h : snapshot_uncrossed bids asks = true) (b a : ℚ)
    (hb : (ob.update_from_snapshot bids asks).best_bid = some b)
    (ha : (ob.update_from_snapshot bids asks).best_ask = some a) :
    b ≤ a := by
  simp only [LocalOrderbook.update_from_snapshot, LocalOrderbook.best_bid,
    LocalOrderbook.best_ask] at hb ha
  have hbmem : b ∈ Book.keys (loadSide bids) := Book.maxKey_mem _ _ hb
  have hamem : a ∈ Book.keys (loadSide asks) := Book.minKey_mem _ _ ha
  rcases loadSide_keys bids [] b hbmem with hc | ⟨s, hsmem, hs⟩
  · simp [Book.keys] at hc
  rcases loadSide_keys asks [] a hamem with hc | ⟨t, htmem, ht⟩
  · simp [Book.keys] at hc
  have h1 := List.all_eq_true.mp h _ hsmem
  have h2 := List.all_eq_true.mp h1 _ htmem
  simp only [level_uncrossed, if_pos hs, if_pos ht] at h2
  exact of_decide_eq_true h2

/-- C5 amended witness: an uncrossed snapshot (bid 0.4, ask 0.6) yields
`best_bid ≤ best_ask`. -/
theorem update_from_snapshot_uncrossed_witness :
    (4/10 : ℚ) ≤ 6/10 :=
  update_from_snapshot_uncrossed (LocalOrderbook.new "a")
    [(some (4/10), some 1)] [(some (6/10), some 1)]
    (by norm_num [snapshot_uncrossed, level_uncrossed])
    (4/10) (6/10)
    (by norm_num [LocalOrderbook.new, LocalOrderbook.update_from_snapshot,
      LocalOrderbook.best_bid, loadSide, loadLevel, Book.insert,
      Book.maxKey])
    (by norm_num [LocalOrderbook.new, LocalOrderbook.update_from_snapshot,
      LocalOrderbook.best_ask, loadSide, loadLevel, Book.insert,
      Book.minKey])

/-- C6: when the earlier guards pass (minute window, not yet entered,
prediction present, confidence at threshold), the best-ask gate of
`should_enter` admits a best ask exactly equal to `max_entry_price`
(an order is signalled) and rejects any best ask strictly above it
(no order). -/
theorem should_enter_ask_gate (cfg : DirectionalConfig)
    (feed : BtcPriceState) (st : MarketState) (d : Bool) (p a : ℚ)
    (hmin : ¬ (st.minute_of_period < cfg.entry_minute_min ∨
        st.minute_of_period > cfg.entry_minute_max))
    (hpred : get_predicted_outcome feed = some d)
    (hpct : get_price_change_pct feed = some p)
    (hconf : ¬ (|p| < cfg.min_confidence_pct))
    (hask : (if d then st.up_best_ask else st.down_best_ask) = some a) :
    (a ≤ cfg.max_entry_price →
      should_enter cfg false feed st
        = some (if d then Outcome.up else Outcome.down, a)) ∧
    (cfg.max_entry_price < a →
      should_enter cfg false feed st = none) := by
  obtain ⟨c, hc⟩ : ∃ c, get_price_change feed = some c := by
    cases hmop : feed.market_open_price with
    | none =>
      exfalso
      simp [get_predicted_outcome, hmop] at hpred
    | some o =>
      exact ⟨feed.current_price - o, by simp [get_price_change, hmop]⟩
  have hmain : should_enter cfg false feed st
      = (if a > cfg.max_entry_price then none
         else some (if d then Outcome.up else Outcome.down, a)) := by
    simp only [should_enter, if_neg hmin, Bool.false_eq_true, if_false,
      hpred, hc, hpct, if_neg hconf]
    cases d with
    | false =>
      simp only [Bool.false_eq_true, if_false] at hask ⊢
      rw [hask]
    | true =>
      simp only [if_true] at hask ⊢
      rw [hask]
  constructor
  · intro hle
    rw [hmain, if_neg (not_lt.mpr hle)]
  · intro hgt
    rw [hmain, if_pos hgt]

/-- C6 witness: with open 100 and current 101 (change +1 percent), minute
12 in the window 10–14, and a best ask of 0.75 equal to
`max_entry_price = 0.75`, the gate passes and the UP entry is signalled. -/
theorem should_enter_ask_gate_witness :
    should_enter
        (DirectionalConfig.mk 10 14 (2/100) (75/100) 100 400 true (2/100)
          5 (2/100))
        false
        (BtcPriceState.mk 101 (some 100) true [] none)
        (MarketState.mk none (some (75/100)) none none none none 600 12)
      = some (Outcome.up, 75/100) :=
  (should_enter_ask_gate
      (DirectionalConfig.mk 10 14 (2/100) (75/100) 100 400 true (2/100)
        5 (2/100))
      (BtcPriceState.mk 101 (some 100) true [] none)
      (MarketState.mk none (some (75/100)) none none none none 600 12)
      true 1 (75/100)
      (by norm_num)
      (by norm_num [get_predicted_outcome])
      (by norm_num [get_price_change_pct])
      (by norm_num)
      (by norm_num)).1 (le_refl _)

/-- C9: the derived tx hashes depend only on the event, so processing the
same `OrderFilled` (or `OrdersMatched`) event twice derives identical
maker-side and taker-side hashes, and because `save_trade` inserts with
`ON CONFLICT (tx_hash) DO NOTHING`, the stored set after the second
processing equals the set after the first, whatever the two wall-clock
timestamps; from an empty table an event whose two derived hashes differ
(as SHA-256 gives on the distinct preimages) stores exactly one row per
side. -/
theorem process_event_idempotent :
    (∀ (db : List Trade) (ts1 ts2 : ℕ) (e : OrderFilledEvent),
      process_order_filled (process_order_filled db ts1 e) ts2 e
        = process_order_filled db ts1 e) ∧
    (∀ (db : List Trade) (ts1 ts2 : ℕ) (e : OrdersMatchedEvent),
      process_orders_matched (process_orders_matched db ts1 e) ts2 e
        = process_orders_matched db ts1 e) ∧
    (∀ (ts : ℕ) (e : OrderFilledEvent),
      order_filled_maker_tx_hash e ≠ order_filled_taker_tx_hash e →
      countHash (process_order_filled [] ts e)
          (order_filled_maker_tx_hash e) = 1 ∧
      countHash (process_order_filled [] ts e)
          (order_filled_taker_tx_hash e) = 1) := by
  refine ⟨?_, ?_, ?_⟩
  · intro db ts1 ts2 e
    unfold process_order_filled
    exact save_pair_idem db (order_filled_maker_trade e ts1)
      (order_filled_taker_trade e ts1) (order_filled_maker_trade e ts2)
      (order_filled_taker_trade e ts2) rfl rfl
  · intro db ts1 ts2 e
    unfold process_orders_matched
    exact save_pair_idem db (orders_matched_maker_trade e ts1)
      (orders_matched_taker_trade e ts1) (orders_matched_maker_trade e ts2)
      (orders_matched_taker_trade e ts2) rfl rfl
  · intro ts e hne
    have hm : (order_filled_maker_trade e ts).tx_hash
        = order_filled_maker_tx_hash e := rfl
    have ht : (order_filled_taker_trade e ts).tx_hash
        = order_filled_taker_tx_hash e := rfl
    have h1 : save_trade [] (order_filled_maker_trade e ts)
        = [order_filled_maker_trade e ts] := by
      unfold save_trade
      simp
    have h2 : save_trade [order_filled_maker_trade e ts]
          (order_filled_taker_trade e ts)
        = [order_filled_maker_trade e ts,
           order_filled_taker_trade e ts] := by
      unfold save_trade
      rw [if_neg]
      · rfl
      · simp only [List.any_cons, List.any_nil, Bool.or_false,
          beq_iff_eq, hm, ht]
        exact hne
    have hdb : process_order_filled [] ts e
        = [order_filled_maker_trade e ts,
           order_filled_taker_trade e ts] := by
      unfold process_order_filled
      rw [h1, h2]
    rw [hdb]
    constructor
    · simp [countHash, List.filter_cons, hm, ht, Ne.symm hne]
    · simp [countHash, List.filter_cons, hm, ht, hne]

set_option maxRecDepth 400000 in
/-- C9 witness: a concrete `OrderFilled` event; its two derived SHA-256
hashes differ, and processing it once from the empty table stores exactly
one row per side. -/
theorem process_event_idempotent_witness :
    countHash (process_order_filled [] 0 demo_filled_event)
        (order_filled_maker_tx_hash demo_filled_event) = 1 ∧
    countHash (process_order_filled [] 0 demo_filled_event)
        (order_filled_taker_tx_hash demo_filled_event) = 1 :=
  process_event_idempotent.2.2 0 demo_filled_event (by decide)

end ARB
